import Mathlib

/-!
Shallow embedding of the derived-analytics and chat-session engine of the
personal-finance dashboard (src/app/page.tsx and the chat component in
src/unnamed/part_000), together with theorems settling the specification
claims about it.

Numbers are modelled as exact rationals.  Where the JavaScript source can
produce the IEEE special values NaN and Infinity (division by zero in the
saving-score ratio), a dedicated type JSNum with explicit special values is
used so the embedding follows the source behaviour exactly.
-/

namespace FinApp

/-- Model of a JavaScript number: a finite rational or one of the IEEE
special values produced by the arithmetic in the source. -/
inductive JSNum where
  | fin (q : ℚ)
  | posInf
  | negInf
  | nan
deriving DecidableEq

/-- JavaScript addition, extended to the special values. -/
def jsAdd : JSNum → JSNum → JSNum
  | .fin a, .fin b => .fin (a + b)
  | .nan, _ => .nan
  | _, .nan => .nan
  | .posInf, .negInf => .nan
  | .negInf, .posInf => .nan
  | .posInf, _ => .posInf
  | _, .posInf => .posInf
  | .negInf, _ => .negInf
  | _, .negInf => .negInf

/-- JavaScript multiplication, extended to the special values. -/
def jsMul : JSNum → JSNum → JSNum
  | .fin a, .fin b => .fin (a * b)
  | .nan, _ => .nan
  | _, .nan => .nan
  | .posInf, .posInf => .posInf
  | .posInf, .negInf => .negInf
  | .negInf, .posInf => .negInf
  | .negInf, .negInf => .posInf
  | .posInf, .fin b => if b = 0 then .nan else if 0 < b then .posInf else .negInf
  | .fin a, .posInf => if a = 0 then .nan else if 0 < a then .posInf else .negInf
  | .negInf, .fin b => if b = 0 then .nan else if 0 < b then .negInf else .posInf
  | .fin a, .negInf => if a = 0 then .nan else if 0 < a then .negInf else .posInf

/-- JavaScript division, extended to the special values: `x / 0` is
NaN for `x = 0` and a signed infinity otherwise (the divisor 0 is `+0`). -/
def jsDiv : JSNum → JSNum → JSNum
  | .fin a, .fin b =>
      if b = 0 then (if a = 0 then .nan else if 0 < a then .posInf else .negInf)
      else .fin (a / b)
  | .nan, _ => .nan
  | _, .nan => .nan
  | .posInf, .posInf => .nan
  | .posInf, .negInf => .nan
  | .negInf, .posInf => .nan
  | .negInf, .negInf => .nan
  | .posInf, .fin b => if 0 ≤ b then .posInf else .negInf
  | .negInf, .fin b => if 0 ≤ b then .negInf else .posInf
  | .fin _, .posInf => .fin 0
  | .fin _, .negInf => .fin 0

/-- JavaScript `Math.min`: NaN-propagating minimum. -/
def jsMin : JSNum → JSNum → JSNum
  | .nan, _ => .nan
  | _, .nan => .nan
  | .negInf, _ => .negInf
  | _, .negInf => .negInf
  | .posInf, x => x
  | x, .posInf => x
  | .fin a, .fin b => .fin (min a b)

/-- JavaScript `Math.max`: NaN-propagating maximum. -/
def jsMax : JSNum → JSNum → JSNum
  | .nan, _ => .nan
  | _, .nan => .nan
  | .posInf, _ => .posInf
  | _, .posInf => .posInf
  | .negInf, x => x
  | x, .negInf => x
  | .fin a, .fin b => .fin (max a b)

/-- JavaScript `a || b` for a numeric `a` and numeric fallback `b`:
falls back exactly when `a` is falsy, i.e. NaN or (signed) zero. -/
def jsOr (a : JSNum) (b : ℚ) : JSNum :=
  match a with
  | .nan => .fin b
  | .fin q => if q = 0 then .fin b else .fin q
  | x => x

/-- JavaScript `Math.round` on an exact rational: floor of `q + 1/2`
(halves round toward positive infinity, as in JS). -/
def roundQ (q : ℚ) : ℤ := ⌊q + 1/2⌋

/-- JavaScript `Math.round`, extended to the special values. -/
def jsRound : JSNum → JSNum
  | .fin q => .fin ((roundQ q : ℤ) : ℚ)
  | x => x

/-- Model of `undefined`-producing optional access used in arithmetic:
`undefined` behaves as NaN once it enters a numeric operator. -/
def jsOfOpt : Option ℚ → JSNum
  | none => .nan
  | some q => .fin q

/-! Data model of src/app/page.tsx (lines 252-289).  Presentational
fields (ids, titles, dates-as-strings, moods, confidence, tags) that are
never read by the computations under verification are omitted; the
transaction date enters only through calendar-day bucketing and is
modelled as an integer day index (0 = today, negative = days ago). -/

/-- A transaction record (type `Expense` in the source). -/
structure Expense where
  amount : ℚ
  category : String
  day : ℤ
deriving DecidableEq

/-- A budget record (type `Budget` in the source).  `smartLimit` is the
optional engine-computed suggestion, distinct from `limit`. -/
structure Budget where
  category : String
  limit : ℚ
  smartLimit : Option ℚ
deriving DecidableEq

/-- A financial goal (type `FinancialGoal` in the source); only
`target` and `current` are read by the engine. -/
structure FinancialGoal where
  target : ℚ
  current : ℚ
deriving DecidableEq

/-- The composite health score record (type `FinancialHealthScore`). -/
structure FinancialHealthScore where
  overall : JSNum
  spending : JSNum
  saving : JSNum
  budgeting : JSNum
  planning : JSNum
deriving DecidableEq

/-- Sum of all transaction amounts (page.tsx line 840). -/
def totalSpentOf (expenses : List Expense) : ℚ :=
  (expenses.map (·.amount)).sum

/-- Sum of all budget limits (page.tsx line 841). -/
def totalBudgetOf (budgets : List Budget) : ℚ :=
  (budgets.map (·.limit)).sum

/-- The spending sub-score (page.tsx line 843):
`totalBudget > 0 ? Math.max(0, 100 - (totalSpent / totalBudget) * 100) : 50`. -/
def spendingScore (expenses : List Expense) (budgets : List Budget) : ℚ :=
  if 0 < totalBudgetOf budgets then
    max 0 (100 - totalSpentOf expenses / totalBudgetOf budgets * 100)
  else 50

/-- The saving sub-score (page.tsx line 844):
`Math.min(100, (financialGoals[0]?.current / financialGoals[0]?.target) * 100 || 0)`.
The optional accesses yield `undefined` (NaN in arithmetic) on an empty
goal list, and the division yields NaN or a signed infinity when the
first goal's target is 0. -/
def savingScore (goals : List FinancialGoal) : JSNum :=
  jsMin (.fin 100)
    (jsOr
      (jsMul
        (jsDiv (jsOfOpt ((goals.head?).map (·.current)))
               (jsOfOpt ((goals.head?).map (·.target))))
        (.fin 100))
      0)

/-- The budgeting sub-score (page.tsx line 845): 80 if any budget exists, else 20. -/
def budgetingScore (budgets : List Budget) : ℚ :=
  if budgets.length > 0 then 80 else 20

/-- The planning sub-score (page.tsx line 846): 75 if any goal exists, else 25. -/
def planningScore (goals : List FinancialGoal) : ℚ :=
  if goals.length > 0 then 75 else 25

/-- The health-score computation `calculateFinancialHealth`
(page.tsx lines 839-857): the overall score is
`Math.round((spendingScore + savingScore + budgetingScore + planningScore) / 4)`
and each stored sub-score is `Math.round` of its raw value. -/
def calculateFinancialHealth (expenses : List Expense) (budgets : List Budget)
    (goals : List FinancialGoal) : FinancialHealthScore :=
  let sp := spendingScore expenses budgets
  let sv := savingScore goals
  let bu := budgetingScore budgets
  let pl := planningScore goals
  { overall := jsRound (jsDiv (jsAdd (jsAdd (jsAdd (.fin sp) sv) (.fin bu)) (.fin pl)) (.fin 4))
    spending := jsRound (.fin sp)
    saving := jsRound sv
    budgeting := jsRound (.fin bu)
    planning := jsRound (.fin pl) }

/-! Aggregation module (page.tsx lines 872-915).  A JavaScript
`Record<string, number>` built by key insertion is modelled as an
association list in key-insertion order: assigning to an existing key
updates its value in place, assigning to a fresh key appends it. -/

/-- One step of `map[t.category] = (map[t.category] ?? 0) + t.amount`. -/
def insertAdd : List (String × ℚ) → String → ℚ → List (String × ℚ)
  | [], k, v => [(k, v)]
  | (k', v') :: rest, k, v =>
      if k' = k then (k', v' + v) :: rest else (k', v') :: insertAdd rest k v

/-- The group-by-category aggregation `totalsByCategory`
(page.tsx lines 872-876): per-category sums of amounts, in first-seen
category order. -/
def totalsByCategory (filtered : List Expense) : List (String × ℚ) :=
  filtered.foldl (fun m t => insertAdd m t.category t.amount) []

/-- First value bound to a key in an association list (JS property read:
`undefined`, i.e. `none`, when the key is absent). -/
def alookup : List (String × ℚ) → String → Option ℚ
  | [], _ => none
  | (k, v) :: rest, c => if k = c then some v else alookup rest c

/-- Total amount recorded for one category in a transaction list. -/
def catTotal (filtered : List Expense) (c : String) : ℚ :=
  ((filtered.filter (fun e => e.category = c)).map (·.amount)).sum

/-- Number of transactions of one category in a transaction list. -/
def catCount (filtered : List Expense) (c : String) : ℕ :=
  (filtered.filter (fun e => e.category = c)).length

/-- The per-category average map built by `anomalousExpenses`
(page.tsx lines 906-909): `acc[cat.name] = cat.value / filtered.filter(...).length`. -/
def avgByCategory (filtered : List Expense) : List (String × ℚ) :=
  (totalsByCategory filtered).map
    (fun cat => (cat.1, cat.2 / ((catCount filtered cat.1 : ℕ) : ℚ)))

/-- The anomaly filter (page.tsx lines 911-914): a transaction is kept
iff `expense.amount > (avgByCategory[expense.category] || 0) * 2`. -/
def anomalousExpenses (filtered : List Expense) : List Expense :=
  filtered.filter (fun e =>
    decide (((alookup (avgByCategory filtered) e.category).getD 0) * 2 < e.amount))

/-! Forecasting module: the monthly-spend projection inside `kpiData`
(page.tsx lines 1040-1050). -/

/-- Total spend over the filtered transaction list (page.tsx line 878). -/
def totalSpend (filtered : List Expense) : ℚ :=
  (filtered.map (·.amount)).sum

/-- The monthly projection (page.tsx lines 1041-1042):
`avgDaily = totalSpend / new Date().getDate(); projectedMonthly = avgDaily * 30`,
with the day of month passed in as the value `getDate()` returned. -/
def kpiProjectedMonthly (filtered : List Expense) (dayOfMonth : ℕ) : JSNum :=
  jsMul (jsDiv (.fin (totalSpend filtered)) (.fin (dayOfMonth : ℚ))) (.fin 30)

/-! Budget optimization (page.tsx lines 1012-1029). -/

/-- The category spend looked up by `optimizeBudget`
(page.tsx line 1013): `totalsByCategory.find(t => t.name === category)?.value || 0`. -/
def categorySpendOf (filtered : List Expense) (category : String) : ℚ :=
  ((((totalsByCategory filtered).find? (fun t => decide (t.1 = category))).map
    Prod.snd).getD 0)

/-- The budget optimizer `optimizeBudget` (page.tsx lines 1012-1029):
sets `smartLimit = Math.round(categorySpend * 1.1)` on every budget of
the given category, touching nothing else. -/
def optimizeBudget (budgets : List Budget) (filtered : List Expense)
    (category : String) : List Budget :=
  let optimizedAmount : ℚ := ((roundQ (categorySpendOf filtered category * (11/10)) : ℤ) : ℚ)
  budgets.map (fun b =>
    if b.category = category then { b with smartLimit := some optimizedAmount } else b)

/-! Trend series with jitter-based predictions (page.tsx lines 880-902).
Calendar dates are modelled by the integer day index of `Expense.day`
(0 = today); each outcome of `Math.random()` is passed in explicitly as
a rational in [0, 1). -/

/-- One point of the trend series: spend value and predicted flag. -/
structure TrendEntry where
  spend : ℚ
  predicted : Bool
deriving DecidableEq

/-- Spend on a single calendar day: sum of the filtered transactions
whose date falls on that day (page.tsx lines 886-888). -/
def daySpend (filtered : List Expense) (d : ℤ) : ℚ :=
  ((filtered.filter (fun t => decide (t.day = d))).map (·.amount)).sum

/-- The 12 trailing actual-day entries (page.tsx lines 882-890): the
loop runs i = 11 down to 0, pushing the day `today - i`. -/
def actualDays (filtered : List Expense) : List TrendEntry :=
  (List.range 12).map
    (fun (j : ℕ) => { spend := daySpend filtered ((j : ℤ) - 11), predicted := false })

/-- The entry pushed by one iteration of the prediction loop
(page.tsx lines 893-899): `avgSpend = days.reduce(...) / days.length`
over the list as grown so far, then
`Math.round(avgSpend * (0.8 + rand * 0.4))`, flagged `predicted`. -/
def nextPrediction (days : List TrendEntry) (r : ℚ) : TrendEntry :=
  ⟨((roundQ (((days.map (·.spend)).sum) / ((days.length : ℕ) : ℚ) * (4/5 + r * (2/5))) : ℤ) : ℚ),
    true⟩

/-- The prediction loop (page.tsx lines 893-900): one push per random
draw, each recomputing the running average over the grown list. -/
def pushPredictions (days : List TrendEntry) : List ℚ → List TrendEntry
  | [] => days
  | r :: rs => pushPredictions (days ++ [nextPrediction days r]) rs

/-- The full trend series `trendData` (page.tsx lines 880-902): 12
actual days followed by one predicted entry per random draw (the source
always makes 5 draws). -/
def trendData (filtered : List Expense) (rands : List ℚ) : List TrendEntry :=
  pushPredictions (actualDays filtered) rands

/-- The running mean over the first `12 + k` entries of the series. -/
def trendMean (filtered : List Expense) (rands : List ℚ) (k : ℕ) : ℚ :=
  (((trendData filtered rands).take (12 + k)).map (·.spend)).sum / ((12 + k : ℕ) : ℚ)

/-! Chat session store (src/unnamed/part_000).  Generated identifiers
(`GEN_ID()`) and timestamps (`nowISO()`) are passed in as explicit
string parameters. -/

/-- Message roles (part_000 line 112). -/
inductive Role where
  | system
  | user
  | assistant
deriving DecidableEq

/-- A chat message (part_000 line 113). -/
structure Message where
  id : String
  role : Role
  content : String
  ts : String
  pinned : Option Bool
deriving DecidableEq

/-- A chat (part_000 line 114). -/
structure Chat where
  id : String
  title : String
  createdAt : String
  messages : List Message
deriving DecidableEq

/-- A `Partial<Message>` patch as used by `updateMessageInChat`
(content replacement and pin toggling). -/
structure MessagePatch where
  content : Option String
  pinned : Option (Option Bool)
deriving DecidableEq

/-- JavaScript object spread `{ ...m, ...patch }`: fields present in the
patch replace those of the message. -/
def applyPatch (m : Message) (p : MessagePatch) : Message :=
  { m with content := p.content.getD m.content, pinned := p.pinned.getD m.pinned }

/-- `addMessageToChat` (part_000 lines 556-560): builds the message from
a generated id and timestamp, appends it to the matching chat's message
list, and returns it. -/
def addMessageToChat (genId ts : String) (chats : List Chat) (chatId : String)
    (role : Role) (content : String) : List Chat × Message :=
  let m : Message := { id := genId, role := role, content := content, ts := ts, pinned := none }
  (chats.map (fun c =>
    if c.id = chatId then { c with messages := c.messages ++ [m] } else c), m)

/-- `updateMessageInChat` (part_000 lines 562-568): patches the matching
message of the matching chat in place. -/
def updateMessageInChat (chats : List Chat) (chatId messageId : String)
    (patch : MessagePatch) : List Chat :=
  chats.map (fun c =>
    if c.id = chatId then
      { c with messages :=
          (c.messages.map (fun m => if m.id = messageId then applyPatch m patch else m)) }
    else c)

/-- `deleteMessageFromChat` (part_000 lines 570-572): removes the
matching message from the matching chat. -/
def deleteMessageFromChat (chats : List Chat) (chatId messageId : String) : List Chat :=
  chats.map (fun c =>
    if c.id = chatId then
      { c with messages := c.messages.filter (fun m => decide (m.id ≠ messageId)) }
    else c)

/-! Streaming response assembler (part_000 lines 368-403).  Decoded text
chunks are passed in as a string list; the library call
`JSON.parse(line)` together with the reply-field extraction of lines
395-397 is abstracted as a function `extract : String → Option String`
(`none` models a parse failure or a non-string candidate). -/

/-- JavaScript `String.prototype.split` with separator `"\n"` on a
character list: the separator-delimited pieces, empty pieces included. -/
def splitLines : List Char → List (List Char)
  | [] => [[]]
  | c :: cs =>
      if c = '\n' then [] :: splitLines cs
      else
        match splitLines cs with
        | [] => [[c]]
        | l :: ls => (c :: l) :: ls

/-- String-level wrapper of `splitLines`. -/
def jsSplitNl (s : String) : List String :=
  (splitLines s.toList).map List.asString

/-- One iteration of the reader loop (part_000 lines 386-400): emit the
raw decoded chunk, split the accumulated buffer on newlines, keep the
unterminated tail as the new buffer, and emit the extracted candidate of
every complete non-blank line.  Returns the new buffer and the emission
list of this iteration, in order. -/
def chunkEmits (extract : String → Option String) (buffer chunk : String) :
    String × List String :=
  let buf := buffer ++ chunk
  let lines := jsSplitNl buf
  let newBuffer := (lines.getLast?).getD ""
  let emits := (lines.dropLast).filterMap
    (fun line => if line.toList.all Char.isWhitespace then none else extract line)
  (newBuffer, chunk :: emits)

/-- The reader loop of `streamTextFromResponse` (part_000 lines
383-401): the ordered list of all `onChunk` invocation arguments for a
given chunk sequence. -/
def streamEmits (extract : String → Option String) : String → List String → List String
  | _, [] => []
  | buffer, c :: cs =>
      let pe := chunkEmits extract buffer c
      pe.2 ++ streamEmits extract pe.1 cs

/-- The accumulation done by the `onChunk` callback of `sendChatMessage`
(part_000 lines 622-626): `accumulated += chunk` before each UI update —
the list of successive `content` values written to the placeholder. -/
def accumUpdates : String → List String → List String
  | _, [] => []
  | acc, e :: es => (acc ++ e) :: accumUpdates (acc ++ e) es

/-! JSON values and the error/reply field extraction of `sendChatMessage`. -/

/-- A parsed JSON value. -/
inductive Json where
  | str (s : String)
  | num (q : ℚ)
  | bool (b : Bool)
  | null
  | arr (elems : List Json)
  | obj (fields : List (String × Json))

/-- First binding of a key in a JSON object's field list. -/
def jfind : List (String × Json) → String → Option Json
  | [], _ => none
  | (k, v) :: rest, key => if k = key then some v else jfind rest key

/-- JavaScript `j?.key` composed with `??` chaining: produces the field
value unless the receiver is not an object or the field is absent
(`undefined`) or `null` — in all of which `??` falls through. -/
def jsGetField : Json → String → Option Json
  | .obj fields, key =>
      match jfind fields key with
      | some .null => none
      | some v => some v
      | none => none
  | _, _ => none

mutual

/-- JavaScript stringification as used by template interpolation and
`String(x)`.  Number formatting is approximated by the exact rational's
canonical form; the claims only exercise string values. -/
def jsToDisplay : Json → String
  | .str s => s
  | .num q => toString q
  | .bool b => if b then "true" else "false"
  | .null => "null"
  | .arr elems => String.intercalate "," (jsToDisplayList elems)
  | .obj _ => "[object Object]"

/-- Elementwise display of a JSON array's elements. -/
def jsToDisplayList : List Json → List String
  | [] => []
  | j :: rest => jsToDisplay j :: jsToDisplayList rest

end

mutual

/-- JavaScript `JSON.stringify` (string escaping elided; the claims only
exercise the object-with-error-field shape, which never reaches it). -/
def jsonStringify : Json → String
  | .str s => "\"" ++ s ++ "\""
  | .num q => toString q
  | .bool b => if b then "true" else "false"
  | .null => "null"
  | .arr elems => "[" ++ String.intercalate "," (jsonStringifyList elems) ++ "]"
  | .obj fields => "\x7b" ++ String.intercalate "," (jsonStringifyFields fields) ++ "\x7d"

/-- Serialization of a JSON array's elements. -/
def jsonStringifyList : List Json → List String
  | [] => []
  | j :: rest => jsonStringify j :: jsonStringifyList rest

/-- Serialization of a JSON object's fields. -/
def jsonStringifyFields : List (String × Json) → List String
  | [] => []
  | (k, v) :: rest => ("\"" ++ k ++ "\":" ++ jsonStringify v) :: jsonStringifyFields rest

end

/-- The HTTP response of the chat backend as observed by
`sendChatMessage`: status and ok flag, the outcome of `res.json()` and
`res.text()` (`Except.error` models a thrown parse/read failure with the
error's message), and the chunk sequence of `res.body` when present. -/
structure ChatResponse where
  ok : Bool
  status : ℕ
  jsonBody : Except String Json
  textBody : Except String String
  bodyChunks : Option (List String)

/-- Outcome of the `fetch` call: a network-level exception or a response. -/
inductive FetchOutcome where
  | failure (errMsg : String)
  | response (r : ChatResponse)

/-- The error text of the non-ok branch (part_000 lines 603-612):
`Error <status>` by default, replaced by
`j?.error ?? j?.message ?? JSON.stringify(j)` when the body parses as
JSON, else by `res.text()` when that succeeds. -/
def errorTextOf (r : ChatResponse) : String :=
  match r.jsonBody with
  | .ok j =>
      match jsGetField j "error" with
      | some v => jsToDisplay v
      | none =>
          match jsGetField j "message" with
          | some v => jsToDisplay v
          | none => jsonStringify j
  | .error _ =>
      match r.textBody with
      | .ok t => t
      | .error _ => "Error " ++ toString r.status

/-- The non-stream reply extraction (part_000 line 637):
`j?.reply ?? j?.response ?? j?.message?.content ?? String(j)`,
then `String(reply)`. -/
def replyOf (j : Json) : String :=
  match jsGetField j "reply" with
  | some v => jsToDisplay v
  | none =>
      match jsGetField j "response" with
      | some v => jsToDisplay v
      | none =>
          match (jsGetField j "message").bind (fun m => jsGetField m "content") with
          | some v => jsToDisplay v
          | none => jsToDisplay j

/-- JavaScript `String.prototype.trim`. -/
def jsTrim (s : String) : String :=
  (((s.toList.dropWhile Char.isWhitespace).reverse.dropWhile Char.isWhitespace).reverse).asString

/-- `sendChatMessage` (part_000 lines 576-646) as a state transformer on
the chat collection: reject blank text before any network call, append
the user message and the placeholder assistant message, then patch the
placeholder according to the fetch outcome — warning-prefixed error text
on a non-ok response or a network failure, the accumulated stream text
on a streamed body, the extracted reply otherwise. -/
def sendChatMessage (streamEnabled : Bool) (uid uts aid ats : String)
    (extract : String → Option String) (chats : List Chat) (chatId : String)
    (userText : String) (outcome : FetchOutcome) : List Chat :=
  if jsTrim userText = "" then chats
  else
    let trimmed := jsTrim userText
    let step1 := addMessageToChat uid uts chats chatId .user trimmed
    let step2 := addMessageToChat aid ats step1.1 chatId .assistant "⏳ Assistant is thinking..."
    let chats2 := step2.1
    let assistantMsg := step2.2
    match outcome with
    | .failure e =>
        updateMessageInChat chats2 chatId assistantMsg.id
          { content := some ("⚠️ Network error: " ++ e), pinned := none }
    | .response r =>
        if r.ok then
          match r.bodyChunks, streamEnabled with
          | some chunks, true =>
              (accumUpdates "" (streamEmits extract "" chunks)).foldl
                (fun cs acc => updateMessageInChat cs chatId assistantMsg.id
                  { content := some acc, pinned := none }) chats2
          | _, _ =>
              match r.jsonBody with
              | .ok j =>
                  updateMessageInChat chats2 chatId assistantMsg.id
                    { content := some (replyOf j), pinned := none }
              | .error e =>
                  updateMessageInChat chats2 chatId assistantMsg.id
                    { content := some ("⚠️ Network error: " ++ e), pinned := none }
        else
          updateMessageInChat chats2 chatId assistantMsg.id
            { content := some ("⚠️ " ++ errorTextOf r), pinned := none }

/-- The HTTP 500 response with body parsing to the JSON object with one
field `error` bound to the string `boom`. -/
def boomResponse : ChatResponse :=
  ⟨false, 500, .ok (.obj [("error", .str "boom")]), .ok "", none⟩

/-! Helper lemmas for the health-score computation. -/

theorem jsOr_fin_zero (x : ℚ) : jsOr (.fin x) 0 = .fin x := by
  by_cases h : x = 0 <;> simp [jsOr, h]

theorem savingScore_nil : savingScore [] = .fin 0 := by
  simp [savingScore, jsOfOpt, jsDiv, jsMul, jsOr, jsMin]

theorem savingScore_cons_target_ne (g : FinancialGoal) (rest : List FinancialGoal)
    (h : g.target ≠ 0) :
    savingScore (g :: rest) = .fin (min 100 (g.current / g.target * 100)) := by
  simp only [savingScore, List.head?_cons, Option.map_some', jsOfOpt]
  simp only [jsDiv]
  rw [if_neg h]
  simp only [jsMul, jsOr_fin_zero, jsMin]

theorem savingScore_cons_target_zero_current_zero (g : FinancialGoal)
    (rest : List FinancialGoal) (ht : g.target = 0) (hc : g.current = 0) :
    savingScore (g :: rest) = .fin 0 := by
  simp [savingScore, jsOfOpt, ht, hc, jsDiv, jsMul, jsOr, jsMin]

theorem savingScore_cons_target_zero_current_pos (g : FinancialGoal)
    (rest : List FinancialGoal) (ht : g.target = 0) (hc : 0 < g.current) :
    savingScore (g :: rest) = .fin 100 := by
  simp only [savingScore, List.head?_cons, Option.map_some', jsOfOpt]
  simp only [jsDiv]
  rw [if_pos ht, if_neg (ne_of_gt hc), if_pos hc]
  norm_num [jsMul, jsOr, jsMin]

theorem savingScore_bounds (goals : List FinancialGoal)
    (hG : ∀ g ∈ goals, 0 ≤ g.current ∧ 0 ≤ g.target) :
    ∃ s : ℚ, savingScore goals = .fin s ∧ 0 ≤ s ∧ s ≤ 100 := by
  match goals with
  | [] => exact ⟨0, savingScore_nil, le_refl 0, by norm_num⟩
  | g :: rest =>
      obtain ⟨hc, ht⟩ := hG g (List.mem_cons_self g rest)
      by_cases h0 : g.target = 0
      · by_cases hc0 : g.current = 0
        · exact ⟨0, savingScore_cons_target_zero_current_zero g rest h0 hc0,
            le_refl 0, by norm_num⟩
        · exact ⟨100, savingScore_cons_target_zero_current_pos g rest h0
            (lt_of_le_of_ne hc (Ne.symm hc0)), by norm_num, le_refl 100⟩
      · refine ⟨min 100 (g.current / g.target * 100),
          savingScore_cons_target_ne g rest h0, ?_, min_le_left _ _⟩
        have htpos : 0 < g.target := lt_of_le_of_ne ht (Ne.symm h0)
        have : 0 ≤ g.current / g.target * 100 := by positivity
        exact le_min (by norm_num) this

theorem totalSpentOf_nonneg (expenses : List Expense)
    (hA : ∀ e ∈ expenses, 0 ≤ e.amount) : 0 ≤ totalSpentOf expenses := by
  refine List.sum_nonneg ?_
  intro x hx
  obtain ⟨e, he, rfl⟩ := List.mem_map.mp hx
  exact hA e he

theorem spendingScore_bounds (expenses : List Expense) (budgets : List Budget)
    (hA : ∀ e ∈ expenses, 0 ≤ e.amount) (hL : ∀ b ∈ budgets, 0 ≤ b.limit) :
    0 ≤ spendingScore expenses budgets ∧ spendingScore expenses budgets ≤ 100 := by
  rw [spendingScore]
  split
  · rename_i hb
    constructor
    · exact le_max_left 0 _
    · have hts : 0 ≤ totalSpentOf expenses := totalSpentOf_nonneg expenses hA
      have hr : 0 ≤ totalSpentOf expenses / totalBudgetOf budgets * 100 := by positivity
      refine max_le (by norm_num) (by linarith)
  · norm_num

theorem budgetingScore_bounds (budgets : List Budget) :
    0 ≤ budgetingScore budgets ∧ budgetingScore budgets ≤ 100 := by
  rw [budgetingScore]; split <;> norm_num

theorem planningScore_bounds (goals : List FinancialGoal) :
    0 ≤ planningScore goals ∧ planningScore goals ≤ 100 := by
  rw [planningScore]; split <;> norm_num

theorem roundQ_nonneg (q : ℚ) (h : 0 ≤ q) : 0 ≤ roundQ q := by
  rw [roundQ]
  exact Int.le_floor.mpr (by push_cast; linarith)

theorem roundQ_le_of_le (q : ℚ) (h : q ≤ 100) : roundQ q ≤ 100 := by
  rw [roundQ]
  have : (⌊q + 1/2⌋ : ℚ) ≤ q + 1/2 := Int.floor_le _
  have h2 : (⌊q + 1/2⌋ : ℚ) < 101 := by linarith
  exact_mod_cast Int.lt_add_one_iff.mp (by exact_mod_cast h2)

/-- C1: for every list of transactions, budgets and goals whose records
satisfy the data-model invariants (non-negative amounts, limits, goal
figures), the `overall` field of `calculateFinancialHealth` equals the
nearest-integer rounding of the arithmetic mean of the four raw
sub-scores (spending, saving, budgeting, planning), and this overall
value lies in the interval [0, 100]. -/
theorem overall_is_rounded_mean_and_in_range (expenses : List Expense)
    (budgets : List Budget) (goals : List FinancialGoal)
    (hA : ∀ e ∈ expenses, 0 ≤ e.amount) (hL : ∀ b ∈ budgets, 0 ≤ b.limit)
    (hG : ∀ g ∈ goals, 0 ≤ g.current ∧ 0 ≤ g.target) :
    ∃ s : ℚ, savingScore goals = .fin s ∧
      (calculateFinancialHealth expenses budgets goals).overall =
        .fin ((roundQ ((spendingScore expenses budgets + s + budgetingScore budgets
          + planningScore goals) / 4) : ℤ) : ℚ) ∧
      0 ≤ roundQ ((spendingScore expenses budgets + s + budgetingScore budgets
          + planningScore goals) / 4) ∧
      roundQ ((spendingScore expenses budgets + s + budgetingScore budgets
          + planningScore goals) / 4) ≤ 100 := by
  obtain ⟨s, hs, hs0, hs100⟩ := savingScore_bounds goals hG
  refine ⟨s, hs, ?_, ?_, ?_⟩
  · rw [calculateFinancialHealth]
    simp only [hs, jsAdd]
    rw [jsDiv]
    norm_num [jsRound]
  · obtain ⟨hsp0, _⟩ := spendingScore_bounds expenses budgets hA hL
    obtain ⟨hb0, _⟩ := budgetingScore_bounds budgets
    obtain ⟨hp0, _⟩ := planningScore_bounds goals
    exact roundQ_nonneg _ (by linarith)
  · obtain ⟨_, hsp100⟩ := spendingScore_bounds expenses budgets hA hL
    obtain ⟨_, hb100⟩ := budgetingScore_bounds budgets
    obtain ⟨_, hp100⟩ := planningScore_bounds goals
    exact roundQ_le_of_le _ (by linarith)

/-- C1 witness: the theorem applied to the empty stores. -/
theorem overall_is_rounded_mean_witness :
    ∃ s : ℚ, savingScore [] = .fin s ∧
      (calculateFinancialHealth [] [] []).overall =
        .fin ((roundQ ((spendingScore [] [] + s + budgetingScore []
          + planningScore []) / 4) : ℤ) : ℚ) ∧
      0 ≤ roundQ ((spendingScore [] [] + s + budgetingScore []
          + planningScore []) / 4) ∧
      roundQ ((spendingScore [] [] + s + budgetingScore []
          + planningScore []) / 4) ≤ 100 :=
  overall_is_rounded_mean_and_in_range [] [] [] (by simp) (by simp) (by simp)

/-- C2 counterexample: with a first goal whose target is 0 and whose
current amount is 5, the saving sub-score stored by
`calculateFinancialHealth` is 100, not 0 as the claim states (the
JavaScript ratio is +Infinity, and `Math.min(100, Infinity)` is 100). -/
theorem saving_target_zero_counterexample :
    (calculateFinancialHealth [] [] [⟨0, 5⟩]).saving = .fin 100 ∧
    (calculateFinancialHealth [] [] [⟨0, 5⟩]).saving ≠ .fin 0 := by
  have h : savingScore [⟨0, 5⟩] = .fin 100 :=
    savingScore_cons_target_zero_current_pos ⟨0, 5⟩ [] rfl (by norm_num)
  rw [calculateFinancialHealth]
  simp only [h, jsRound]
  norm_num [roundQ]

/-- C2 amended: the saving sub-score is `min(100, 100 × current/target)`
of the first goal whenever its target is nonzero; it is 0 when the goal
list is empty or the first goal has both target 0 and current 0; and it
is 100 (not 0) when the first goal's target is 0 and its current amount
is positive. -/
theorem savingScore_cases (goals : List FinancialGoal) :
    (goals = [] → savingScore goals = .fin 0) ∧
    (∀ g rest, goals = g :: rest →
      (g.target ≠ 0 → savingScore goals = .fin (min 100 (g.current / g.target * 100))) ∧
      (g.target = 0 → g.current = 0 → savingScore goals = .fin 0) ∧
      (g.target = 0 → 0 < g.current → savingScore goals = .fin 100)) := by
  refine ⟨fun h => h ▸ savingScore_nil, fun g rest h => ?_⟩
  subst h
  exact ⟨savingScore_cons_target_ne g rest,
    savingScore_cons_target_zero_current_zero g rest,
    savingScore_cons_target_zero_current_pos g rest⟩

/-- C2 witness: the amended theorem applied to a goal list whose first
goal has target 0 and current 7, giving saving sub-score 100. -/
theorem savingScore_cases_witness : savingScore [⟨0, 7⟩] = .fin 100 :=
  (((savingScore_cases [⟨0, 7⟩]).2 ⟨0, 7⟩ [] rfl).2.2) rfl (by norm_num)

theorem sum_insertAdd (m : List (String × ℚ)) (k : String) (v : ℚ) :
    ((insertAdd m k v).map Prod.snd).sum = ((m.map Prod.snd).sum) + v := by
  induction m with
  | nil => simp [insertAdd]
  | cons p rest ih =>
      obtain ⟨k', v'⟩ := p
      by_cases h : k' = k
      · simp [insertAdd, h]; ring
      · simp [insertAdd, h, ih]; ring

theorem sum_foldl_insertAdd (l : List Expense) :
    ∀ m : List (String × ℚ),
      (((l.foldl (fun m t => insertAdd m t.category t.amount) m).map Prod.snd).sum)
        = (m.map Prod.snd).sum + (l.map (·.amount)).sum := by
  induction l with
  | nil => intro m; simp
  | cons t rest ih =>
      intro m
      simp only [List.foldl_cons, List.map_cons, List.sum_cons]
      rw [ih (insertAdd m t.category t.amount), sum_insertAdd]
      ring

/-- C3: for every list of transactions, the sum of the per-category
totals produced by `totalsByCategory` equals the sum of all transaction
amounts (conservation of total). -/
theorem totalsByCategory_conserves_sum (filtered : List Expense) :
    (((totalsByCategory filtered).map Prod.snd).sum) = (filtered.map (·.amount)).sum := by
  rw [totalsByCategory, sum_foldl_insertAdd filtered []]
  simp

theorem alookup_insertAdd (m : List (String × ℚ)) (k c : String) (v : ℚ) :
    alookup (insertAdd m k v) c =
      if k = c then some ((alookup m c).getD 0 + v) else alookup m c := by
  induction m with
  | nil => by_cases h : k = c <;> simp [insertAdd, alookup, h]
  | cons p rest ih =>
      obtain ⟨k', v'⟩ := p
      by_cases h1 : k' = k
      · subst h1
        by_cases h2 : k' = c <;> simp [insertAdd, alookup, h2]
      · by_cases h2 : k' = c
        · subst h2
          have h3 : ¬ k = k' := fun hk => h1 hk.symm
          simp [insertAdd, h1, alookup, h3]
        · simp [insertAdd, h1, alookup, h2, ih]

theorem alookup_foldl_insertAdd (l : List Expense) :
    ∀ m : List (String × ℚ), ∀ c : String,
      alookup (l.foldl (fun m t => insertAdd m t.category t.amount) m) c =
        if catCount l c = 0 then alookup m c
        else some ((alookup m c).getD 0 + catTotal l c) := by
  induction l with
  | nil => intro m c; simp [catCount, catTotal]
  | cons t rest ih =>
      intro m c
      simp only [List.foldl_cons]
      rw [ih (insertAdd m t.category t.amount) c, alookup_insertAdd]
      have hcc : catCount (t :: rest) c = (if t.category = c then 1 else 0) + catCount rest c := by
        by_cases h : t.category = c <;> simp [catCount, List.filter_cons, h] <;> omega
      have hct : catTotal (t :: rest) c
          = (if t.category = c then t.amount else 0) + catTotal rest c := by
        by_cases h : t.category = c <;> simp [catTotal, List.filter_cons, h]
      rw [hcc, hct]
      by_cases h : t.category = c
      · simp only [if_pos h]
        by_cases h2 : catCount rest c = 0
        · have hfe : rest.filter (fun e => e.category = c) = [] := by
            rw [catCount] at h2
            exact List.length_eq_zero.mp h2
          have ht0 : catTotal rest c = 0 := by simp [catTotal, hfe]
          simp [h2, ht0]
        · have h3 : ¬ (1 + catCount rest c = 0) := by omega
          simp only [if_neg h2, if_neg h3, Option.getD_some]
          congr 1
          ring
      · simp only [if_neg h, zero_add]

/-- Category average lookup for a transaction present in the list:
it is the exact arithmetic mean of that category's amounts. -/
theorem alookup_avgByCategory (filtered : List Expense) (c : String)
    (h : catCount filtered c ≠ 0) :
    alookup (avgByCategory filtered) c =
      some (catTotal filtered c / (catCount filtered c : ℚ)) := by
  have hmap : ∀ (m : List (String × ℚ)) (g : String → ℚ → ℚ),
      alookup (m.map (fun p => (p.1, g p.1 p.2))) c = (alookup m c).map (g c) := by
    intro m g
    induction m with
    | nil => simp [alookup]
    | cons p rest ih =>
        by_cases hp : p.1 = c
        · simp [alookup, hp]
        · simp [alookup, hp, ih]
  have htot : alookup (totalsByCategory filtered) c = some (catTotal filtered c) := by
    rw [totalsByCategory, alookup_foldl_insertAdd filtered [] c, if_neg h]
    simp [alookup]
  rw [avgByCategory, hmap (totalsByCategory filtered)
    (fun k v => v / ((catCount filtered k : ℕ) : ℚ)), htot]
  simp

/-- Category totals under a constant amount: when every transaction of
category `c` has amount `a`, the category total is `a` times the count. -/
theorem catTotal_const (l : List Expense) (c : String) (a : ℚ)
    (hall : ∀ e ∈ l, e.category = c → e.amount = a) :
    catTotal l c = a * (catCount l c : ℚ) := by
  induction l with
  | nil => simp [catTotal, catCount]
  | cons t rest ih =>
      have ih' := ih (fun x hx hcx => hall x (List.mem_cons_of_mem t hx) hcx)
      by_cases h : t.category = c
      · have hta : t.amount = a := hall t (List.mem_cons_self t rest) h
        simp only [catTotal, catCount, List.filter_cons, decide_eq_true_eq, if_pos h,
          List.map_cons, List.sum_cons, List.length_cons] at *
        rw [ih', hta]
        push_cast
        ring
      · simp only [catTotal, catCount, List.filter_cons, decide_eq_true_eq, if_neg h] at *
        exact ih'

/-- C4: a transaction is flagged by `anomalousExpenses` iff it belongs
to the filtered list and its amount strictly exceeds twice the mean
amount of its category within that same filtered list; consequently,
when all transactions of a category have one equal non-negative amount,
no transaction of that category is flagged. -/
theorem anomaly_iff_twice_category_mean (filtered : List Expense) :
    (∀ e : Expense, e ∈ anomalousExpenses filtered ↔
      e ∈ filtered ∧
        (catTotal filtered e.category / (catCount filtered e.category : ℚ)) * 2
          < e.amount) ∧
    (∀ (c : String) (a : ℚ), 0 ≤ a →
      (∀ e ∈ filtered, e.category = c → e.amount = a) →
      ∀ e ∈ anomalousExpenses filtered, e.category ≠ c) := by
  have main : ∀ e : Expense, e ∈ anomalousExpenses filtered ↔
      e ∈ filtered ∧
        (catTotal filtered e.category / (catCount filtered e.category : ℚ)) * 2
          < e.amount := by
    intro e
    rw [anomalousExpenses, List.mem_filter]
    constructor
    · rintro ⟨hmem, hdec⟩
      have hcnt : catCount filtered e.category ≠ 0 := by
        rw [catCount]
        intro hzero
        have : e ∈ filtered.filter (fun x => x.category = e.category) :=
          List.mem_filter.mpr ⟨hmem, by simp⟩
        rw [List.length_eq_zero.mp hzero] at this
        exact absurd this (List.not_mem_nil e)
      rw [alookup_avgByCategory filtered e.category hcnt] at hdec
      simp only [Option.getD_some, decide_eq_true_eq] at hdec
      exact ⟨hmem, hdec⟩
    · rintro ⟨hmem, hlt⟩
      have hcnt : catCount filtered e.category ≠ 0 := by
        rw [catCount]
        intro hzero
        have : e ∈ filtered.filter (fun x => x.category = e.category) :=
          List.mem_filter.mpr ⟨hmem, by simp⟩
        rw [List.length_eq_zero.mp hzero] at this
        exact absurd this (List.not_mem_nil e)
      refine ⟨hmem, ?_⟩
      rw [alookup_avgByCategory filtered e.category hcnt]
      simpa using hlt
  refine ⟨main, ?_⟩
  intro c a ha hall e hmem hcat
  obtain ⟨hin, hlt⟩ := (main e).mp hmem
  subst hcat
  have hamt : e.amount = a := hall e hin rfl
  have hcnt : catCount filtered e.category ≠ 0 := by
    rw [catCount]
    intro hzero
    have : e ∈ filtered.filter (fun x => x.category = e.category) :=
      List.mem_filter.mpr ⟨hin, by simp⟩
    rw [List.length_eq_zero.mp hzero] at this
    exact absurd this (List.not_mem_nil e)
  have hTot : catTotal filtered e.category = a * (catCount filtered e.category : ℚ) :=
    catTotal_const filtered e.category a hall
  have hcQ : ((catCount filtered e.category : ℕ) : ℚ) ≠ 0 := by
    exact_mod_cast hcnt
  rw [hTot, mul_div_assoc, div_self hcQ, mul_one, hamt] at hlt
  linarith

/-- C4 witness: a single transaction of amount 1 (its category's only,
hence equal, amount) is not flagged. -/
theorem anomaly_iff_witness :
    (⟨1, "Food", 0⟩ : Expense) ∉ anomalousExpenses [⟨1, "Food", 0⟩] :=
  fun h =>
    (anomaly_iff_twice_category_mean [⟨1, "Food", 0⟩]).2 "Food" 1 (by norm_num)
      (fun e he _ => by
        rcases List.mem_singleton.mp he with rfl
        rfl)
      ⟨1, "Food", 0⟩ h rfl

/-- C6: for every day-of-month value `getDate()` can produce (1..31) the
divisor is nonzero, so the division-by-zero branch of `jsDiv` is not
taken: the projection equals `(totalSpend / dayOfMonth) * 30` exactly,
and it is 0 whenever the total spend so far is 0. -/
theorem kpiProjectedMonthly_safe (filtered : List Expense) (d : ℕ)
    (h1 : 1 ≤ d) (h31 : d ≤ 31) :
    d ≠ 0 ∧
    kpiProjectedMonthly filtered d = .fin (totalSpend filtered / (d : ℚ) * 30) ∧
    (totalSpend filtered = 0 → kpiProjectedMonthly filtered d = .fin 0) := by
  have hd : d ≠ 0 := by omega
  have hdq : ((d : ℕ) : ℚ) ≠ 0 := by exact_mod_cast hd
  have heq : kpiProjectedMonthly filtered d
      = .fin (totalSpend filtered / (d : ℚ) * 30) := by
    rw [kpiProjectedMonthly]
    simp only [jsDiv, if_neg hdq, jsMul]
  refine ⟨hd, heq, fun h0 => ?_⟩
  rw [heq, h0, zero_div, zero_mul]

/-- C6 witness: the theorem applied at day 15 with no transactions. -/
theorem kpiProjectedMonthly_safe_witness :
    (15 : ℕ) ≠ 0 ∧
    kpiProjectedMonthly [] 15 = .fin (totalSpend [] / (15 : ℚ) * 30) ∧
    (totalSpend [] = 0 → kpiProjectedMonthly [] 15 = .fin 0) := by
  have h := kpiProjectedMonthly_safe [] 15 (by norm_num) (by norm_num)
  simpa using h

/-- First-found value and first-bound value agree on association lists. -/
theorem find?_eq_alookup (m : List (String × ℚ)) (c : String) :
    ((m.find? (fun t => decide (t.1 = c))).map Prod.snd) = alookup m c := by
  induction m with
  | nil => simp [alookup]
  | cons p rest ih =>
      by_cases h : p.1 = c
      · simp [List.find?_cons, h, alookup]
      · simp [List.find?_cons, h, alookup, ih]

/-- C7: `optimizeBudget` maps each budget to itself except that budgets
of the requested category get `smartLimit = round(categorySpend × 1.1)`;
the `limit` field of every budget is unchanged; a category with no
recorded spend has `categorySpend = 0` (hence `smartLimit = 0`); in
particular a Food budget with a recorded Food spend of 1000 gets
`smartLimit = 1100` with its limit untouched. -/
theorem optimizeBudget_frame (budgets : List Budget) (filtered : List Expense)
    (category : String) :
    List.Forall₂ (fun b b' =>
        b'.category = b.category ∧ b'.limit = b.limit ∧
        b'.smartLimit = (if b.category = category
          then some ((roundQ (categorySpendOf filtered category * (11/10)) : ℤ) : ℚ)
          else b.smartLimit))
      budgets (optimizeBudget budgets filtered category) ∧
    ((∀ e ∈ filtered, e.category ≠ category) → categorySpendOf filtered category = 0) ∧
    optimizeBudget [⟨"Food", 2000, none⟩] [⟨1000, "Food", 0⟩] "Food"
      = [⟨"Food", 2000, some 1100⟩] := by
  refine ⟨?_, ?_, ?_⟩
  · rw [optimizeBudget]
    induction budgets with
    | nil => exact List.Forall₂.nil
    | cons b rest ih =>
        refine List.Forall₂.cons ?_ ih
        by_cases h : b.category = category <;> simp [h]
  · intro hnone
    have hcnt : catCount filtered category = 0 := by
      rw [catCount, List.length_eq_zero]
      refine List.filter_eq_nil_iff.mpr ?_
      intro e he
      simpa using hnone e he
    rw [categorySpendOf, find?_eq_alookup, totalsByCategory,
      alookup_foldl_insertAdd filtered [] category, if_pos hcnt]
    simp [alookup]
  · have hspend : categorySpendOf [⟨1000, "Food", 0⟩] "Food" = 1000 := by
      simp [categorySpendOf, totalsByCategory, insertAdd]
    rw [optimizeBudget, hspend]
    norm_num [roundQ]

/-- C7 witness: a category with no recorded spend yields spend 0. -/
theorem optimizeBudget_frame_witness : categorySpendOf [] "Travel" = 0 :=
  (optimizeBudget_frame [] [] "Travel").2.1 (by simp)

theorem pushPredictions_length (rands : List ℚ) :
    ∀ days : List TrendEntry,
      (pushPredictions days rands).length = days.length + rands.length := by
  induction rands with
  | nil => intro days; simp [pushPredictions]
  | cons r rs ih =>
      intro days
      rw [pushPredictions, ih]
      simp
      omega

theorem pushPredictions_take (rands : List ℚ) :
    ∀ days : List TrendEntry, (pushPredictions days rands).take days.length = days := by
  induction rands with
  | nil => intro days; simp [pushPredictions]
  | cons r rs ih =>
      intro days
      rw [pushPredictions]
      have h1 := ih (days ++ [nextPrediction days r])
      have h2 : ((pushPredictions (days ++ [nextPrediction days r]) rs).take
            (days ++ [nextPrediction days r]).length).take days.length
          = (pushPredictions (days ++ [nextPrediction days r]) rs).take days.length := by
        rw [List.take_take, min_eq_left (by simp)]
      rw [← h2, h1]
      simpa using List.take_left days [nextPrediction days r]

theorem pushPredictions_get (rands : List ℚ) :
    ∀ (days : List TrendEntry) (k : ℕ) (r : ℚ), rands.get? k = some r →
      (pushPredictions days rands).get? (days.length + k) =
        some (nextPrediction ((pushPredictions days rands).take (days.length + k)) r) := by
  induction rands with
  | nil => intro days k r h; simp at h
  | cons r0 rs ih =>
      intro days k r h
      match k with
      | 0 =>
          have hr : r = r0 := by
            simpa using h.symm
          subst hr
          rw [pushPredictions]
          have htake : (pushPredictions (days ++ [nextPrediction days r]) rs).take
              days.length = days := by
            have h1 := pushPredictions_take rs (days ++ [nextPrediction days r])
            have h2 : ((pushPredictions (days ++ [nextPrediction days r]) rs).take
                  (days ++ [nextPrediction days r]).length).take days.length
                = (pushPredictions (days ++ [nextPrediction days r]) rs).take days.length := by
              rw [List.take_take, min_eq_left (by simp)]
            rw [← h2, h1]
            simpa using List.take_left days [nextPrediction days r]
          have hget : (pushPredictions (days ++ [nextPrediction days r]) rs).get?
              days.length = some (nextPrediction days r) := by
            have h1 := pushPredictions_take rs (days ++ [nextPrediction days r])
            have hlt : days.length < (days ++ [nextPrediction days r]).length := by simp
            rw [← List.get?_take hlt, h1, List.get?_concat_length]
          rw [Nat.add_zero, hget, htake]
      | k' + 1 =>
          have h' : rs.get? k' = some r := by simpa using h
          rw [pushPredictions]
          have hlen : days.length + (k' + 1) = (days ++ [nextPrediction days r0]).length + k' := by
            simp
            omega
          rw [hlen]
          exact ih (days ++ [nextPrediction days r0]) k' r h'

theorem pushPredictions_spend_nonneg (rands : List ℚ) :
    ∀ days : List TrendEntry, (∀ d ∈ days, 0 ≤ d.spend) → (∀ r ∈ rands, 0 ≤ r) →
      ∀ d ∈ pushPredictions days rands, 0 ≤ d.spend := by
  induction rands with
  | nil => intro days hd _ d hmem; exact hd d (by simpa [pushPredictions] using hmem)
  | cons r rs ih =>
      intro days hd hr d hmem
      rw [pushPredictions] at hmem
      refine ih (days ++ [nextPrediction days r]) ?_
        (fun x hx => hr x (List.mem_cons_of_mem r hx)) d hmem
      intro x hx
      rcases List.mem_append.mp hx with h | h
      · exact hd x h
      · rcases List.mem_singleton.mp h with rfl
        simp only [nextPrediction]
        have havg : 0 ≤ ((days.map (·.spend)).sum) / ((days.length : ℕ) : ℚ) := by
          refine div_nonneg ?_ (by positivity)
          refine List.sum_nonneg ?_
          intro y hy
          obtain ⟨e, he, rfl⟩ := List.mem_map.mp hy
          exact hd e he
        have hj : (0 : ℚ) ≤ 4/5 + r * (2/5) := by
          have := hr r (List.mem_cons_self r rs)
          nlinarith
        have := roundQ_nonneg _ (mul_nonneg havg hj)
        exact_mod_cast this

theorem actualDays_length (filtered : List Expense) : (actualDays filtered).length = 12 := by
  rw [actualDays, List.length_map, List.length_range]

theorem actualDays_spend_nonneg (filtered : List Expense)
    (hA : ∀ e ∈ filtered, 0 ≤ e.amount) :
    ∀ d ∈ actualDays filtered, 0 ≤ d.spend := by
  intro d hd
  obtain ⟨j, _, rfl⟩ := List.mem_map.mp hd
  refine List.sum_nonneg ?_
  intro y hy
  obtain ⟨e, he, rfl⟩ := List.mem_map.mp hy
  exact hA e (List.mem_of_mem_filter he)

/-- C5 counterexample: with one transaction of amount 6 today and first
random draw 3/4 (jitter 1.1), the first predicted entry has value
`round(0.5 × 1.1) = 1`, which exceeds 1.2 times the mean (1/2) of the 12
trailing-day actual spends — the claimed bound `v ≤ 1.2 × mean(actual
window)` fails. -/
theorem trend_jitter_bound_counterexample :
    (trendData [⟨6, "Food", 0⟩] [3/4, 0, 0, 0, 0]).get? 12 = some ⟨1, true⟩ ∧
    ¬ ((1 : ℚ) ≤ (6/5) * ((((actualDays [⟨6, "Food", 0⟩]).map (·.spend)).sum) / 12)) := by
  have hsum : (((actualDays [⟨6, "Food", 0⟩]).map (·.spend)).sum) = 6 := by
    norm_num [actualDays, daySpend, List.range_succ, List.filter]
  constructor
  · have hget := pushPredictions_get [3/4, 0, 0, 0, 0] (actualDays [⟨6, "Food", 0⟩]) 0 (3/4) rfl
    have htake := pushPredictions_take [3/4, 0, 0, 0, 0] (actualDays [⟨6, "Food", 0⟩])
    rw [actualDays_length] at hget htake
    rw [trendData, hget, htake, nextPrediction, hsum, actualDays_length]
    norm_num [roundQ]
  · rw [hsum]
    norm_num

/-- C5 amended: the series has one predicted entry per random draw; the
k-th predicted entry equals `round(m_k × j_k)` where `j_k = 0.8 +
rand_k × 0.4` lies in [0.8, 1.2) and `m_k` is the running mean of all
entries already in the series (the 12 actual days plus the earlier
predicted entries, not the actual window alone); before rounding, the
predicted value `m_k × j_k` lies between `0.8 × m_k` and `1.2 × m_k`. -/
theorem trendData_predicted_values (filtered : List Expense) (rands : List ℚ)
    (hr : ∀ r ∈ rands, 0 ≤ r ∧ r < 1) (hA : ∀ e ∈ filtered, 0 ≤ e.amount) :
    (trendData filtered rands).length = 12 + rands.length ∧
    ∀ k r, rands.get? k = some r →
      (trendData filtered rands).get? (12 + k) =
        some ⟨((roundQ (trendMean filtered rands k * (4/5 + r * (2/5))) : ℤ) : ℚ), true⟩ ∧
      (4/5 : ℚ) ≤ 4/5 + r * (2/5) ∧ (4/5 + r * (2/5)) < 6/5 ∧
      (4/5) * trendMean filtered rands k
        ≤ trendMean filtered rands k * (4/5 + r * (2/5)) ∧
      trendMean filtered rands k * (4/5 + r * (2/5))
        ≤ (6/5) * trendMean filtered rands k := by
  have hlen : (trendData filtered rands).length = 12 + rands.length := by
    rw [trendData, pushPredictions_length, actualDays_length]
  refine ⟨hlen, fun k r hk => ?_⟩
  have hklt : k < rands.length := List.get?_eq_some.mp hk |>.1
  obtain ⟨hr0, hr1⟩ := hr r (List.get?_mem hk)
  have hget0 := pushPredictions_get rands (actualDays filtered) k r hk
  rw [actualDays_length] at hget0
  have hget : (trendData filtered rands).get? (12 + k) =
      some (nextPrediction ((trendData filtered rands).take (12 + k)) r) := hget0
  have htklen : ((trendData filtered rands).take (12 + k)).length = 12 + k := by
    rw [List.length_take, hlen]
    omega
  have hmean : nextPrediction ((trendData filtered rands).take (12 + k)) r
      = ⟨((roundQ (trendMean filtered rands k * (4/5 + r * (2/5))) : ℤ) : ℚ), true⟩ := by
    rw [nextPrediction, trendMean, htklen]
  have hm0 : 0 ≤ trendMean filtered rands k := by
    rw [trendMean]
    refine div_nonneg ?_ (by positivity)
    refine List.sum_nonneg ?_
    intro y hy
    obtain ⟨d, hd, rfl⟩ := List.mem_map.mp hy
    have hd' : d ∈ trendData filtered rands := List.mem_of_mem_take hd
    exact pushPredictions_spend_nonneg rands (actualDays filtered)
      (actualDays_spend_nonneg filtered hA) (fun x hx => (hr x hx).1) d hd'
  refine ⟨by rw [hget, hmean], by nlinarith, by nlinarith, ?_, ?_⟩
  · calc (4/5) * trendMean filtered rands k
        = trendMean filtered rands k * (4/5) := by ring
    _ ≤ trendMean filtered rands k * (4/5 + r * (2/5)) := by nlinarith
  · calc trendMean filtered rands k * (4/5 + r * (2/5))
        ≤ trendMean filtered rands k * (6/5) := by nlinarith
    _ = (6/5) * trendMean filtered rands k := by ring

/-- C5 witness: the amended theorem at an empty transaction list with a
single zero random draw. -/
theorem trendData_predicted_values_witness :
    (trendData [] [(0 : ℚ)]).length = 12 + 1 ∧
    (trendData [] [(0 : ℚ)]).get? (12 + 0) =
      some ⟨((roundQ (trendMean [] [(0 : ℚ)] 0 * (4/5 + 0 * (2/5))) : ℤ) : ℚ), true⟩ := by
  have h := trendData_predicted_values [] [(0 : ℚ)] (by norm_num) (by simp)
  exact ⟨h.1, (h.2 0 0 rfl).1⟩

/-- C8: feeding the chunks `["Hel", "lo wor", "ld"]` through the
streaming assembler emits exactly one UI update per chunk (no chunk
contains a newline, so the speculative line parser contributes nothing,
whatever the JSON extraction returns), the i-th update carrying the
concatenation of the first i chunks; folding the updates into the chat
store leaves the assistant placeholder with final content
`"Hello world"`. -/
theorem streaming_hello_world (extract : String → Option String) :
    streamEmits extract "" ["Hel", "lo wor", "ld"] = ["Hel", "lo wor", "ld"] ∧
    accumUpdates "" (streamEmits extract "" ["Hel", "lo wor", "ld"])
      = ["Hel", "Hello wor", "Hello world"] ∧
    (accumUpdates "" (streamEmits extract "" ["Hel", "lo wor", "ld"])).foldl
        (fun cs acc => updateMessageInChat cs "c1" "a1" ⟨some acc, none⟩)
        [⟨"c1", "T", "d", [⟨"a1", .assistant, "⏳ Assistant is thinking...", "t", none⟩]⟩]
      = [⟨"c1", "T", "d", [⟨"a1", .assistant, "Hello world", "t", none⟩]⟩] :=
  ⟨rfl, rfl, rfl⟩

theorem forall₂_map_self {α : Type} (l : List α) (f : α → α) (R : α → α → Prop)
    (h : ∀ a ∈ l, R a (f a)) : List.Forall₂ R l (l.map f) := by
  induction l with
  | nil => exact List.Forall₂.nil
  | cons a rest ih =>
      exact List.Forall₂.cons (h a (List.mem_cons_self a rest))
        (ih (fun x hx => h x (List.mem_cons_of_mem a hx)))

/-- C10: each of the three message operations leaves every chat whose id
differs from the target chat id entirely unchanged (same id, title,
creation date and ordered message list). -/
theorem message_ops_other_chats_unchanged (chats : List Chat)
    (chatId genId ts : String) (role : Role) (content : String)
    (messageId : String) (patch : MessagePatch) :
    List.Forall₂ (fun c c' => c.id ≠ chatId → c' = c) chats
      (addMessageToChat genId ts chats chatId role content).1 ∧
    List.Forall₂ (fun c c' => c.id ≠ chatId → c' = c) chats
      (updateMessageInChat chats chatId messageId patch) ∧
    List.Forall₂ (fun c c' => c.id ≠ chatId → c' = c) chats
      (deleteMessageFromChat chats chatId messageId) := by
  refine ⟨?_, ?_, ?_⟩ <;>
  · refine forall₂_map_self _ _ _ ?_
    intro c _ hne
    simp [if_neg hne]

/-- C10 witness: the theorem at a one-chat store and a different target id. -/
theorem message_ops_other_chats_unchanged_witness :
    List.Forall₂ (fun c c' => c.id ≠ "b" → c' = c) [⟨"a", "T", "d", []⟩]
      (addMessageToChat "m1" "t1" [⟨"a", "T", "d", []⟩] "b" .user "hi").1 ∧
    List.Forall₂ (fun c c' => c.id ≠ "b" → c' = c) [⟨"a", "T", "d", []⟩]
      (updateMessageInChat [⟨"a", "T", "d", []⟩] "b" "m2" ⟨none, none⟩) ∧
    List.Forall₂ (fun c c' => c.id ≠ "b" → c' = c) [⟨"a", "T", "d", []⟩]
      (deleteMessageFromChat [⟨"a", "T", "d", []⟩] "b" "m2") :=
  message_ops_other_chats_unchanged [⟨"a", "T", "d", []⟩] "b" "m1" "t1" .user "hi" "m2"
    ⟨none, none⟩

/-- C9 counterexample: `" "` is a non-empty message text, yet the send
operation rejects it before any network call: the chat store is returned
unchanged (no user message, no assistant message, no error patch), so
the message count grows by 0, not 2. -/
theorem send_blank_text_counterexample :
    " " ≠ "" ∧
    sendChatMessage true "u1" "t1" "a1" "t2" (fun _ => none)
      [⟨"c1", "Chat", "d", []⟩] "c1" " " (.response boomResponse)
      = [⟨"c1", "Chat", "d", []⟩] :=
  ⟨by decide, rfl⟩

/-- C9 amended: for every message text whose trimmed form is non-empty
(and fresh generated message ids), a send hitting the HTTP 500 response
with body `error: boom` appends exactly the user message and the
assistant placeholder — patched to content `"⚠️ boom"` — to every chat
with the target id (count +2), leaves every other chat unchanged, and
returns a well-defined store (no exception escapes). -/
theorem send_http_error_appends_and_patches (chats : List Chat)
    (chatId userText uid uts aid ats : String) (extract : String → Option String)
    (streamEnabled : Bool)
    (hne : jsTrim userText ≠ "")
    (hfresh : ∀ c ∈ chats, ∀ m ∈ c.messages, m.id ≠ aid)
    (hids : uid ≠ aid) :
    List.Forall₂ (fun c c' =>
      (c.id = chatId →
        c'.messages = c.messages ++
          [⟨uid, .user, jsTrim userText, uts, none⟩,
           ⟨aid, .assistant, "⚠️ boom", ats, none⟩] ∧
        c'.messages.length = c.messages.length + 2) ∧
      (c.id ≠ chatId → c' = c)) chats
      (sendChatMessage streamEnabled uid uts aid ats extract chats chatId userText
        (.response boomResponse)) := by
  have hsend : sendChatMessage streamEnabled uid uts aid ats extract chats chatId userText
      (.response boomResponse)
      = ((chats.map (fun c => if c.id = chatId then
            { c with messages := c.messages ++ [⟨uid, .user, jsTrim userText, uts, none⟩] }
          else c)).map (fun c => if c.id = chatId then
            { c with messages := c.messages ++
                [⟨aid, .assistant, "⏳ Assistant is thinking...", ats, none⟩] }
          else c)).map (fun c => if c.id = chatId then
            { c with messages := (c.messages.map (fun m => if m.id = aid then
                applyPatch m ⟨some "⚠️ boom", none⟩ else m)) }
          else c) := by
    rw [sendChatMessage, if_neg hne]
    rfl
  rw [hsend, List.map_map, List.map_map]
  refine forall₂_map_self _ _ _ ?_
  intro c hc
  by_cases h : c.id = chatId
  · refine ⟨fun _ => ?_, fun hn => absurd h hn⟩
    simp only [Function.comp_apply, if_pos h]
    constructor
    · simp only [List.map_append]
      have hold : ∀ ms : List Message, (∀ m ∈ ms, m.id ≠ aid) →
          ms.map (fun m => if m.id = aid then
            applyPatch m ⟨some "⚠️ boom", none⟩ else m) = ms := by
        intro ms hms
        induction ms with
        | nil => rfl
        | cons m rest ih =>
            simp only [List.map_cons]
            rw [if_neg (hms m (List.mem_cons_self m rest)),
              ih (fun x hx => hms x (List.mem_cons_of_mem m hx))]
      rw [hold c.messages (hfresh c hc)]
      simp [hids, applyPatch, List.append_assoc]
    · simp
  · refine ⟨fun hp => absurd hp h, fun _ => ?_⟩
    simp only [Function.comp_apply, if_neg h]

/-- C9 witness: the amended theorem at a one-chat store with fresh ids
and message text `"hi"`. -/
theorem send_http_error_appends_and_patches_witness :
    List.Forall₂ (fun c c' =>
      (c.id = "c1" →
        c'.messages = c.messages ++
          [⟨"u1", .user, jsTrim "hi", "t1", none⟩,
           ⟨"a1", .assistant, "⚠️ boom", "t2", none⟩] ∧
        c'.messages.length = c.messages.length + 2) ∧
      (c.id ≠ "c1" → c' = c)) [⟨"c1", "T", "d", []⟩]
      (sendChatMessage true "u1" "t1" "a1" "t2" (fun _ => none)
        [⟨"c1", "T", "d", []⟩] "c1" "hi" (.response boomResponse)) :=
  send_http_error_appends_and_patches [⟨"c1", "T", "d", []⟩] "c1" "hi" "u1" "t1" "a1" "t2"
    (fun _ => none) true (by decide) (by simp) (by decide)

end FinApp
